import Mathlib

/-!
Verification of the comparetool repository's core behaviour: the DiffViewer
truncation transform and the Home page preselection (frontend sources), and
the diff engine, file-pair matcher and comparison aggregator (modelled from
the specification, since the backend services are not among the sources).
-/

namespace CompareTool

/-! ## DiffViewer truncation (frontend DiffViewer.jsx) -/

/-- Size cap per side used by the DiffViewer (`MAX_CHARS = 200_000`). -/
def MAX_CHARS : Nat := 200000

/-- Text appended to truncated content (`"\n\n...[truncated]"`). -/
def truncMarker : String := "\n\n...[truncated]"

/-- A JavaScript value as it can reach the DiffViewer props: either a string
or one of the non-string values (null, undefined, a number, a boolean, an
object). -/
inductive JSValue where
  | str : String → JSValue
  | null : JSValue
  | undef : JSValue
  | num : Int → JSValue
  | bool : Bool → JSValue
  | obj : JSValue
deriving DecidableEq

/-- The check `typeof v === "string"`. -/
def JSValue.isString : JSValue → Bool
  | .str _ => true
  | _ => false

/-- The `safeOld` / `safeNew` transform of DiffViewer.jsx:
`typeof t === "string" && t.length > MAX_CHARS
   ? t.slice(0, MAX_CHARS) + "\n\n...[truncated]" : t`. -/
def truncateForViewer : JSValue → JSValue
  | JSValue.str s =>
      if s.length > MAX_CHARS then JSValue.str (s.take MAX_CHARS ++ truncMarker)
      else JSValue.str s
  | v => v

/-- A concrete string whose length is exactly the cap. -/
def capStringA : String := String.mk (List.replicate MAX_CHARS 'a')

/-- A concrete string whose length is one over the cap. -/
def capStringB : String := String.mk (List.replicate (MAX_CHARS + 1) 'b')

/-! ## FileDiff records and the Home page preselection (frontend Home.jsx) -/

/-- One per-file diff record as the frontend receives it: component name,
file name, change flag, line counts and a one-line summary. -/
structure FileDiff where
  component_name : String
  file_name : String
  has_changes : Bool
  lines_added : Nat
  lines_removed : Nat
  summary : String
deriving DecidableEq

/-- The preselection in `handleFolderCompare` (Home.jsx): with a non-empty
`file_diffs`, select `file_diffs.find(fd => fd.has_changes) || file_diffs[0]`;
with an empty one, the selection stays `null`. -/
def selectInitialDiff : List FileDiff → Option FileDiff
  | [] => none
  | fd0 :: rest =>
      some (((fd0 :: rest).find? (fun fd => fd.has_changes)).getD fd0)

/-! ## Diff engine (modelled from the spec, §4.2) -/

/-- Modelled from the spec: the backend diff service (`services/diff_service.py`)
is not among the source files; §4.2 requires a line-based diff, so content is
split into its lines at newline characters. Helper walking the character list
with an accumulator for the current line. -/
def splitLinesAux : List Char → List Char → List String
  | [], acc => [String.mk acc.reverse]
  | c :: cs, acc =>
      if c = '\n' then String.mk acc.reverse :: splitLinesAux cs []
      else splitLinesAux cs (c :: acc)

/-- Modelled from the spec: split a text blob into its list of lines. -/
def splitLines (s : String) : List String := splitLinesAux s.data []

/-- Modelled from the spec: length of a longest common subsequence of two line
lists, the number of lines a line diff classifies as unchanged. Structural
recursion on a fuel argument so that concrete inputs evaluate. -/
def lcsLengthFuel : Nat → List String → List String → Nat
  | 0, _, _ => 0
  | _ + 1, [], _ => 0
  | _ + 1, _ :: _, [] => 0
  | fuel + 1, a :: as, b :: bs =>
      if a = b then lcsLengthFuel fuel as bs + 1
      else max (lcsLengthFuel fuel (a :: as) bs) (lcsLengthFuel fuel as (b :: bs))

/-- Modelled from the spec: longest-common-subsequence length of two line
lists, with enough fuel for the recursion to complete. -/
def lcsLength (l1 l2 : List String) : Nat :=
  lcsLengthFuel (l1.length + l2.length) l1 l2

/-- Modelled from the spec: the one-line human-readable summary
`"<A> line(s) added; <R> line(s) removed"` (§4.2). -/
def summaryLine (a r : Nat) : String :=
  toString a ++ " line(s) added; " ++ toString r ++ " line(s) removed"

/-- Result of diffing two raw text blobs: change flag, line counts and the
one-line summary (the FileDiff-equivalent record of §6, without names). -/
structure DiffResult where
  has_changes : Bool
  lines_added : Nat
  lines_removed : Nat
  summary : String
deriving DecidableEq

/-- Modelled from the spec: the diff engine of §4.2. Lines of the old content
absent from a longest common subsequence count as removed, lines of the new
content absent from it count as added; `has_changes` is set when any line was
added or removed, and the summary is `"No changes detected"` exactly when
nothing changed. -/
def computeDiff (old new : String) : DiffResult :=
  let ol := splitLines old
  let nl := splitLines new
  let k := lcsLength ol nl
  let removed := ol.length - k
  let added := nl.length - k
  { has_changes := decide (0 < added + removed)
    lines_added := added
    lines_removed := removed
    summary :=
      if 0 < added + removed then summaryLine added removed
      else "No changes detected" }

/-! ## Sorted, duplicate-free name lists (modelled from the spec, §4.1) -/

/-- Modelled from the spec: §4.1 requires components and files sorted
lexicographically with no duplicates. Insert a name into a sorted,
duplicate-free list, dropping it when already present. -/
def insertName (x : String) : List String → List String
  | [] => [x]
  | y :: ys =>
      if x = y then y :: ys
      else if x < y then x :: y :: ys
      else y :: insertName x ys

/-- Modelled from the spec: the sorted, duplicate-free list of the given
names. -/
def sortDedup : List String → List String
  | [] => []
  | x :: xs => insertName x (sortDedup xs)

/-! ## Directory trees and the file-pair matcher (modelled from the spec, §4.1) -/

/-- Modelled from the spec: a file of a scanned tree — its name, its text
content, and whether reading it succeeds (`readable = false` models a
permission-denied entry, §7). -/
structure FileNode where
  name : String
  content : String
  readable : Bool
deriving DecidableEq

/-- Modelled from the spec: an immediate subdirectory of a root (a
"component"), with the files inside it. -/
structure DirNode where
  name : String
  files : List FileNode
deriving DecidableEq

/-- Modelled from the spec: a root directory, given by its immediate
subdirectories. -/
abbrev FileTree := List DirNode

/-- Names of the immediate subdirectories of a root. -/
def dirNames (t : FileTree) : List String := t.map DirNode.name

/-- Look up a component of a tree by exact name. -/
def findDir (t : FileTree) (n : String) : Option DirNode :=
  t.find? (fun d => d.name = n)

/-- Names of the files inside one component directory. -/
def fileNames (d : DirNode) : List String := d.files.map FileNode.name

/-- Look up a file of a component by exact name. -/
def findFile (d : DirNode) (n : String) : Option FileNode :=
  d.files.find? (fun f => f.name = n)

/-- A matched component as the matcher reports it: the component name and the
sorted names of the files present in it on both sides. -/
structure MatchedComponent where
  name : String
  files : List String
deriving DecidableEq

/-- Modelled from the spec: the matcher's report for one component name — the
matched component when the name is present in both trees, nothing otherwise.
Files are matched by exact filename and listed sorted without duplicates. -/
def matchComponent (oldT newT : FileTree) (n : String) : Option MatchedComponent :=
  match findDir oldT n, findDir newT n with
  | some od, some nd =>
      some { name := n
             files := sortDedup
               ((fileNames od).filter (fun f => (fileNames nd).contains f)) }
  | _, _ => none

/-- Modelled from the spec: the file-pair matcher of §4.1. Components present
in both trees are matched by exact name; within a matched component, files are
matched by exact filename; the component list and each file list are sorted
lexicographically without duplicates. -/
def matchTrees (oldT newT : FileTree) : List MatchedComponent :=
  (sortDedup (dirNames oldT)).filterMap (matchComponent oldT newT)

/-! ## Comparison aggregator (modelled from the spec, §4.3 and §7) -/

/-- Diagnostic message for an entry present only in the new tree. -/
def missingInOldMsg : String := "missing in OLD"

/-- Diagnostic message for an entry present only in the old tree. -/
def missingInNewMsg : String := "missing in NEW"

/-- Diagnostic message for a skipped, permission-denied entry. -/
def skippedMsg : String := "permission denied, skipped"

/-- A diagnostic entry of the comparison report: which component and file it
concerns (an empty file name for a component-level diagnostic) and the
message. -/
structure DiagnosticEntry where
  component_name : String
  file_name : String
  message : String
deriving DecidableEq

/-- Build the FileDiff of a matched, readable file pair from the diff engine's
result. -/
def mkFileDiff (comp f oldContent newContent : String) : FileDiff :=
  let r := computeDiff oldContent newContent
  { component_name := comp
    file_name := f
    has_changes := r.has_changes
    lines_added := r.lines_added
    lines_removed := r.lines_removed
    summary := r.summary }

/-- Modelled from the spec: outcome for one file name inside a matched
component (§4.3, §7): a FileDiff for a readable matched pair, a skipped-entry
diagnostic when either side is unreadable, a sentinel diagnostic for a file
present on one side only. -/
def fileOutcome (comp : String) (od nd : DirNode) (f : String) :
    Option (FileDiff ⊕ DiagnosticEntry) :=
  match findFile od f, findFile nd f with
  | some fo, some fn =>
      if fo.readable && fn.readable then
        some (Sum.inl (mkFileDiff comp f fo.content fn.content))
      else some (Sum.inr ⟨comp, f, skippedMsg⟩)
  | some _, none => some (Sum.inr ⟨comp, f, missingInNewMsg⟩)
  | none, some _ => some (Sum.inr ⟨comp, f, missingInOldMsg⟩)
  | none, none => none

/-- Sorted union of the file names discovered on either side of a matched
component. -/
def componentFileNames (od nd : DirNode) : List String :=
  sortDedup (fileNames od ++ fileNames nd)

/-- All per-file outcomes of one matched component. -/
def componentOutcomes (comp : String) (od nd : DirNode) :
    List (FileDiff ⊕ DiagnosticEntry) :=
  (componentFileNames od nd).filterMap (fileOutcome comp od nd)

/-- The FileDiffs of one matched component. -/
def componentDiffs (comp : String) (od nd : DirNode) : List FileDiff :=
  (componentOutcomes comp od nd).filterMap (fun o =>
    match o with
    | Sum.inl fd => some fd
    | Sum.inr _ => none)

/-- The per-file diagnostics of one matched component. -/
def componentDiags (comp : String) (od nd : DirNode) : List DiagnosticEntry :=
  (componentOutcomes comp od nd).filterMap (fun o =>
    match o with
    | Sum.inl _ => none
    | Sum.inr dg => some dg)

/-- Modelled from the spec: the matched pair of directory entries for one
component name, when the name is present in both trees. -/
def tripleFor (oldT newT : FileTree) (n : String) :
    Option (String × DirNode × DirNode) :=
  match findDir oldT n, findDir newT n with
  | some od, some nd => some (n, od, nd)
  | _, _ => none

/-- Modelled from the spec: the components present in both trees, with their
directory entry on each side, in sorted name order. -/
def matchedTriples (oldT newT : FileTree) : List (String × DirNode × DirNode) :=
  (sortDedup (dirNames oldT ++ dirNames newT)).filterMap (tripleFor oldT newT)

/-- Modelled from the spec: the component-level sentinel diagnostic for one
component name, when the name is present in only one of the two trees. -/
def compDiagFor (oldT newT : FileTree) (n : String) : Option DiagnosticEntry :=
  match findDir oldT n, findDir newT n with
  | some _, none => some ⟨n, "", missingInNewMsg⟩
  | none, some _ => some ⟨n, "", missingInOldMsg⟩
  | _, _ => none

/-- Modelled from the spec: component-level sentinel diagnostics for
components present in only one of the two trees (§4.3). -/
def componentDiagnostics (oldT newT : FileTree) : List DiagnosticEntry :=
  (sortDedup (dirNames oldT ++ dirNames newT)).filterMap (compDiagFor oldT newT)

/-- The aggregate a comparison produces: summary counts, the ordered per-file
diffs, and the diagnostics of entries that produced no FileDiff. -/
structure ComparisonResult where
  total_components : Nat
  components_with_changes : Nat
  file_diffs : List FileDiff
  diagnostics : List DiagnosticEntry
deriving DecidableEq

/-- Modelled from the spec: the comparison aggregator of §4.3. It drives the
matcher over the two trees and the diff engine over every matched readable
file pair; counts are derived by scanning the per-file results, and entries
present on one side only or unreadable become diagnostics, never FileDiffs. -/
def compareTrees (oldT newT : FileTree) : ComparisonResult :=
  let tri := matchedTriples oldT newT
  { total_components := tri.length
    components_with_changes :=
      (tri.filter (fun p =>
        (componentDiffs p.1 p.2.1 p.2.2).any (fun fd => fd.has_changes))).length
    file_diffs := tri.flatMap (fun p => componentDiffs p.1 p.2.1 p.2.2)
    diagnostics :=
      componentDiagnostics oldT newT ++
        tri.flatMap (fun p => componentDiags p.1 p.2.1 p.2.2) }

/-! ## Concrete trees used as witnesses -/

/-- A tree with the component "alpha" absent from the new side and, inside the
matched component "shared", the file "old.cfg" absent from the new side. -/
def oldTreeM : FileTree :=
  [⟨"alpha", [⟨"a.cfg", "x", true⟩]⟩, ⟨"shared", [⟨"old.cfg", "1", true⟩]⟩]

/-- The new-side tree matching `oldTreeM`: the component "beta" and, inside
"shared", the file "new.cfg" are absent from the old side. -/
def newTreeM : FileTree :=
  [⟨"beta", [⟨"b.cfg", "y", true⟩]⟩, ⟨"shared", [⟨"new.cfg", "2", true⟩]⟩]

/-- A tree with one matched component whose single file is unreadable. -/
def oldTreeP : FileTree := [⟨"comp", [⟨"f.cfg", "old", false⟩]⟩]

/-- The new-side tree matching `oldTreeP`, with the file readable. -/
def newTreeP : FileTree := [⟨"comp", [⟨"f.cfg", "new", true⟩]⟩]

/-! ## Helper lemmas -/

theorem lcsLengthFuel_self (l : List String) :
    ∀ fuel, l.length + l.length ≤ fuel → lcsLengthFuel fuel l l = l.length := by
  induction l with
  | nil => intro fuel _; cases fuel <;> rfl
  | cons a as ih =>
      intro fuel h
      cases fuel with
      | zero =>
          simp only [List.length_cons] at h
          omega
      | succ f =>
          have hf : as.length + as.length ≤ f := by
            simp only [List.length_cons] at h
            omega
          simp [lcsLengthFuel, ih f hf]

theorem insertName_cons_eq (x : String) (ys : List String) :
    insertName x (x :: ys) = x :: ys := by
  rw [insertName, if_pos rfl]

theorem insertName_cons_lt {x y : String} (h1 : x ≠ y) (h2 : x < y)
    (ys : List String) : insertName x (y :: ys) = x :: y :: ys := by
  rw [insertName, if_neg h1, if_pos h2]

theorem insertName_cons_gt {x y : String} (h1 : x ≠ y) (h2 : ¬ x < y)
    (ys : List String) : insertName x (y :: ys) = y :: insertName x ys := by
  rw [insertName, if_neg h1, if_neg h2]

theorem mem_insertName {a x : String} :
    ∀ {l : List String}, a ∈ insertName x l ↔ a = x ∨ a ∈ l := by
  intro l
  induction l with
  | nil => simp [insertName]
  | cons y ys ih =>
      by_cases hxy : x = y
      · subst hxy
        rw [insertName_cons_eq]
        simp only [List.mem_cons]
        tauto
      · by_cases hlt : x < y
        · rw [insertName_cons_lt hxy hlt]
          simp only [List.mem_cons]
        · rw [insertName_cons_gt hxy hlt]
          simp only [List.mem_cons, ih]
          tauto

theorem pairwise_insertName {x : String} :
    ∀ {l : List String}, l.Pairwise (· < ·) →
      (insertName x l).Pairwise (· < ·) := by
  intro l
  induction l with
  | nil => intro _; simp [insertName]
  | cons y ys ih =>
      intro h
      rcases List.pairwise_cons.mp h with ⟨hy, hys⟩
      by_cases hxy : x = y
      · subst hxy
        rw [insertName_cons_eq]
        exact h
      · by_cases hlt : x < y
        · rw [insertName_cons_lt hxy hlt]
          refine List.pairwise_cons.mpr ⟨?_, h⟩
          intro b hb
          rcases List.mem_cons.mp hb with rfl | hb
          · exact hlt
          · exact lt_trans hlt (hy b hb)
        · have hyx : y < x := by
            rcases lt_trichotomy x y with h1 | h1 | h1
            · exact absurd h1 hlt
            · exact absurd h1 hxy
            · exact h1
          rw [insertName_cons_gt hxy hlt]
          refine List.pairwise_cons.mpr ⟨?_, ih hys⟩
          intro b hb
          rcases mem_insertName.mp hb with rfl | hb
          · exact hyx
          · exact hy b hb

theorem pairwise_sortDedup : ∀ l : List String, (sortDedup l).Pairwise (· < ·) := by
  intro l
  induction l with
  | nil => simp [sortDedup]
  | cons x xs ih => exact pairwise_insertName ih

theorem mem_sortDedup {a : String} :
    ∀ {l : List String}, a ∈ sortDedup l ↔ a ∈ l := by
  intro l
  induction l with
  | nil => simp [sortDedup]
  | cons x xs ih =>
      simp only [sortDedup, mem_insertName, ih, List.mem_cons]

theorem findDir_name {t : FileTree} {n : String} {d : DirNode}
    (h : findDir t n = some d) : d.name = n := by
  have := List.find?_some h
  simpa using this

theorem findDir_mem {t : FileTree} {n : String} {d : DirNode}
    (h : findDir t n = some d) : n ∈ dirNames t := by
  have hd : d ∈ t := List.mem_of_find?_eq_some h
  have hn : d.name = n := findDir_name h
  exact hn ▸ List.mem_map_of_mem DirNode.name hd

theorem findDir_isSome_of_mem {t : FileTree} {n : String} (h : n ∈ dirNames t) :
    ∃ d, findDir t n = some d := by
  rcases List.mem_map.mp h with ⟨d, hd, hn⟩
  have : (t.find? (fun d => d.name = n)).isSome :=
    List.find?_isSome.mpr ⟨d, hd, by simp [hn]⟩
  exact Option.isSome_iff_exists.mp this

theorem findDir_eq_none {t : FileTree} {n : String} (h : n ∉ dirNames t) :
    findDir t n = none := by
  apply List.find?_eq_none.mpr
  intro d hd hdn
  exact h (List.mem_map.mpr ⟨d, hd, by simpa using hdn⟩)

theorem findFile_name {d : DirNode} {n : String} {f : FileNode}
    (h : findFile d n = some f) : f.name = n := by
  have := List.find?_some h
  simpa using this

theorem findFile_isSome_of_mem {d : DirNode} {n : String} (h : n ∈ fileNames d) :
    ∃ f, findFile d n = some f := by
  rcases List.mem_map.mp h with ⟨f, hf, hn⟩
  have : (d.files.find? (fun f => f.name = n)).isSome :=
    List.find?_isSome.mpr ⟨f, hf, by simp [hn]⟩
  exact Option.isSome_iff_exists.mp this

theorem findFile_eq_none {d : DirNode} {n : String} (h : n ∉ fileNames d) :
    findFile d n = none := by
  apply List.find?_eq_none.mpr
  intro f hf hfn
  exact h (List.mem_map.mpr ⟨f, hf, by simpa using hfn⟩)

theorem matchComponent_name {oldT newT : FileTree} {n : String} {c : MatchedComponent}
    (h : matchComponent oldT newT n = some c) : c.name = n := by
  unfold matchComponent at h
  cases ho : findDir oldT n <;> rw [ho] at h
  · exact Option.noConfusion h
  · cases hn : findDir newT n <;> rw [hn] at h
    · exact Option.noConfusion h
    · cases Option.some.inj h
      rfl

theorem matchComponent_files {oldT newT : FileTree} {n : String} {c : MatchedComponent}
    (h : matchComponent oldT newT n = some c) : c.files.Pairwise (· < ·) := by
  unfold matchComponent at h
  cases ho : findDir oldT n <;> rw [ho] at h
  · exact Option.noConfusion h
  · cases hn : findDir newT n <;> rw [hn] at h
    · exact Option.noConfusion h
    · cases Option.some.inj h
      exact pairwise_sortDedup _

theorem tripleFor_parts {oldT newT : FileTree} {n : String}
    {p : String × DirNode × DirNode} (h : tripleFor oldT newT n = some p) :
    p.1 = n ∧ findDir oldT n = some p.2.1 ∧ findDir newT n = some p.2.2 := by
  unfold tripleFor at h
  cases ho : findDir oldT n <;> rw [ho] at h
  · exact Option.noConfusion h
  · cases hn : findDir newT n <;> rw [hn] at h
    · exact Option.noConfusion h
    · cases Option.some.inj h
      exact ⟨rfl, rfl, rfl⟩

theorem tripleFor_mem {oldT newT : FileTree} {c : String} {od nd : DirNode}
    (ho : findDir oldT c = some od) (hn : findDir newT c = some nd) :
    (c, od, nd) ∈ matchedTriples oldT newT := by
  apply List.mem_filterMap.mpr
  refine ⟨c, mem_sortDedup.mpr (List.mem_append.mpr (Or.inl (findDir_mem ho))), ?_⟩
  rw [tripleFor, ho, hn]

theorem fileOutcome_inl {comp : String} {od nd : DirNode} {f : String} {fd : FileDiff}
    (h : fileOutcome comp od nd f = some (Sum.inl fd)) :
    fd.component_name = comp ∧ fd.file_name = f := by
  unfold fileOutcome at h
  split at h
  · split at h
    · cases Sum.inl.inj (Option.some.inj h)
      exact ⟨rfl, rfl⟩
    · exact absurd (Option.some.inj h) (by simp)
  · exact absurd (Option.some.inj h) (by simp)
  · exact absurd (Option.some.inj h) (by simp)
  · exact Option.noConfusion h

theorem fileOutcome_inr {comp : String} {od nd : DirNode} {f : String}
    {dg : DiagnosticEntry} (h : fileOutcome comp od nd f = some (Sum.inr dg)) :
    dg.component_name = comp ∧ dg.file_name = f := by
  unfold fileOutcome at h
  split at h
  · split at h
    · exact absurd (Option.some.inj h) (by simp)
    · cases Sum.inr.inj (Option.some.inj h)
      exact ⟨rfl, rfl⟩
  · cases Sum.inr.inj (Option.some.inj h)
    exact ⟨rfl, rfl⟩
  · cases Sum.inr.inj (Option.some.inj h)
    exact ⟨rfl, rfl⟩
  · exact Option.noConfusion h

theorem fileOutcome_isSome {comp : String} {od nd : DirNode} {f : String}
    (hf : f ∈ fileNames od ∨ f ∈ fileNames nd) :
    ∃ o, fileOutcome comp od nd f = some o := by
  rcases ho : fileOutcome comp od nd f with _ | o
  · exfalso
    unfold fileOutcome at ho
    split at ho
    · split at ho
      · exact Option.noConfusion ho
      · exact Option.noConfusion ho
    · exact Option.noConfusion ho
    · exact Option.noConfusion ho
    · rename_i hno hnn
      rcases hf with hf | hf
      · rcases findFile_isSome_of_mem hf with ⟨x, hx⟩
        rw [hno] at hx
        exact Option.noConfusion hx
      · rcases findFile_isSome_of_mem hf with ⟨x, hx⟩
        rw [hnn] at hx
        exact Option.noConfusion hx
  · exact ⟨o, rfl⟩

theorem fileOutcome_inl_found {comp : String} {od nd : DirNode} {f : String}
    {fd : FileDiff} (h : fileOutcome comp od nd f = some (Sum.inl fd)) :
    (∃ fo, findFile od f = some fo) ∧ ∃ fn, findFile nd f = some fn := by
  unfold fileOutcome at h
  split at h
  · rename_i fo fn hfo hfn
    exact ⟨⟨fo, hfo⟩, ⟨fn, hfn⟩⟩
  · exact absurd (Option.some.inj h) (by simp)
  · exact absurd (Option.some.inj h) (by simp)
  · exact Option.noConfusion h

theorem fileOutcome_missing_new {comp : String} {od nd : DirNode} {f : String}
    {fo : FileNode} (hfo : findFile od f = some fo) (hfn : findFile nd f = none) :
    fileOutcome comp od nd f = some (Sum.inr ⟨comp, f, missingInNewMsg⟩) := by
  simp only [fileOutcome, hfo, hfn]

theorem fileOutcome_missing_old {comp : String} {od nd : DirNode} {f : String}
    {fn : FileNode} (hfo : findFile od f = none) (hfn : findFile nd f = some fn) :
    fileOutcome comp od nd f = some (Sum.inr ⟨comp, f, missingInOldMsg⟩) := by
  simp only [fileOutcome, hfo, hfn]

theorem fileOutcome_skipped {comp : String} {od nd : DirNode} {f : String}
    {fo fn : FileNode} (hfo : findFile od f = some fo) (hfn : findFile nd f = some fn)
    (hr : (fo.readable && fn.readable) = false) :
    fileOutcome comp od nd f = some (Sum.inr ⟨comp, f, skippedMsg⟩) := by
  simp only [fileOutcome, hfo, hfn, hr]
  simp

theorem componentDiffs_names {comp : String} {od nd : DirNode} {fd : FileDiff}
    (h : fd ∈ componentDiffs comp od nd) :
    fd.component_name = comp := by
  rcases List.mem_filterMap.mp h with ⟨o, ho, hm⟩
  cases o with
  | inl fd2 =>
      cases Option.some.inj hm
      rcases List.mem_filterMap.mp ho with ⟨f, _, hout⟩
      exact (fileOutcome_inl hout).1
  | inr dg => exact Option.noConfusion hm

theorem mem_componentDiffs {comp : String} {od nd : DirNode} {f : String}
    {fd : FileDiff} (hf : f ∈ componentFileNames od nd)
    (h : fileOutcome comp od nd f = some (Sum.inl fd)) :
    fd ∈ componentDiffs comp od nd :=
  List.mem_filterMap.mpr ⟨Sum.inl fd, List.mem_filterMap.mpr ⟨f, hf, h⟩, rfl⟩

theorem mem_componentDiags {comp : String} {od nd : DirNode} {f : String}
    {dg : DiagnosticEntry} (hf : f ∈ componentFileNames od nd)
    (h : fileOutcome comp od nd f = some (Sum.inr dg)) :
    dg ∈ componentDiags comp od nd :=
  List.mem_filterMap.mpr ⟨Sum.inr dg, List.mem_filterMap.mpr ⟨f, hf, h⟩, rfl⟩

theorem mem_file_diffs {oldT newT : FileTree} {fd : FileDiff} :
    fd ∈ (compareTrees oldT newT).file_diffs ↔
      ∃ p ∈ matchedTriples oldT newT, fd ∈ componentDiffs p.1 p.2.1 p.2.2 := by
  simp [compareTrees, List.mem_flatMap]

theorem mem_diagnostics_of_file {oldT newT : FileTree} {dg : DiagnosticEntry}
    {p : String × DirNode × DirNode} (hp : p ∈ matchedTriples oldT newT)
    (h : dg ∈ componentDiags p.1 p.2.1 p.2.2) :
    dg ∈ (compareTrees oldT newT).diagnostics := by
  show dg ∈ componentDiagnostics oldT newT ++ _
  exact List.mem_append.mpr (Or.inr (List.mem_flatMap.mpr ⟨p, hp, h⟩))

theorem mem_diagnostics_of_comp {oldT newT : FileTree} {dg : DiagnosticEntry}
    {n : String} (hn : n ∈ dirNames oldT ++ dirNames newT)
    (h : compDiagFor oldT newT n = some dg) :
    dg ∈ (compareTrees oldT newT).diagnostics := by
  show dg ∈ componentDiagnostics oldT newT ++ _
  exact List.mem_append.mpr
    (Or.inl (List.mem_filterMap.mpr ⟨n, mem_sortDedup.mpr hn, h⟩))

theorem no_file_diffs_of_unmatched {oldT newT : FileTree} {c : String}
    (h : c ∉ dirNames oldT ∨ c ∉ dirNames newT) :
    ∀ fd ∈ (compareTrees oldT newT).file_diffs, fd.component_name ≠ c := by
  intro fd hfd hcontra
  rcases mem_file_diffs.mp hfd with ⟨p, hp, hdiff⟩
  have hname : fd.component_name = p.1 := componentDiffs_names hdiff
  rcases List.mem_filterMap.mp hp with ⟨n, _, htrip⟩
  rcases tripleFor_parts htrip with ⟨hp1, hfindo, hfindn⟩
  have hc : c = n := by rw [← hcontra, hname, hp1]
  rcases h with h | h
  · apply h
    rw [hc]
    exact findDir_mem hfindo
  · apply h
    rw [hc]
    exact findDir_mem hfindn

theorem no_file_diff_at {oldT newT : FileTree} {c f : String} {od nd : DirNode}
    (ho : findDir oldT c = some od) (hn : findDir newT c = some nd)
    (hnone : findFile od f = none ∨ findFile nd f = none) :
    ∀ fd ∈ (compareTrees oldT newT).file_diffs,
      ¬(fd.component_name = c ∧ fd.file_name = f) := by
  intro fd hfd hcf
  rcases hcf with ⟨hc, hfile⟩
  rcases mem_file_diffs.mp hfd with ⟨p, hp, hdiff⟩
  have hname : fd.component_name = p.1 := componentDiffs_names hdiff
  rcases List.mem_filterMap.mp hp with ⟨n, _, htrip⟩
  rcases tripleFor_parts htrip with ⟨hp1, hfindo, hfindn⟩
  have hcn : n = c := by rw [← hp1, ← hname, hc]
  subst hcn
  have hod : p.2.1 = od := Option.some.inj (hfindo.symm.trans ho)
  have hnd : p.2.2 = nd := Option.some.inj (hfindn.symm.trans hn)
  rw [hp1, hod, hnd] at hdiff
  rcases List.mem_filterMap.mp hdiff with ⟨o, ho2, hm⟩
  cases o with
  | inr dg => exact Option.noConfusion hm
  | inl fd2 =>
      cases Option.some.inj hm
      rcases List.mem_filterMap.mp ho2 with ⟨f2, _, hout⟩
      have hff : f2 = f := by
        rw [← (fileOutcome_inl hout).2, hfile]
      subst hff
      rcases fileOutcome_inl_found hout with ⟨⟨fo, hfo⟩, ⟨fn, hfn⟩⟩
      rcases hnone with hnone | hnone
      · rw [hnone] at hfo
        exact Option.noConfusion hfo
      · rw [hnone] at hfn
        exact Option.noConfusion hfn

theorem map_name_filterMap_sublist {g : String → Option MatchedComponent}
    (hg : ∀ n c, g n = some c → c.name = n) :
    ∀ l : List String, ((l.filterMap g).map MatchedComponent.name).Sublist l := by
  intro l
  induction l with
  | nil => simp
  | cons x xs ih =>
      cases hx : g x with
      | none =>
          rw [List.filterMap_cons_none hx]
          exact ih.cons x
      | some c =>
          rw [List.filterMap_cons_some hx, List.map_cons, hg x c hx]
          exact ih.cons₂ x

/-! ## The claims -/

/-- C1: for every string input, content whose length is exactly the
200,000-character size cap passes the DiffViewer `safeOld`/`safeNew` transform
unchanged (no truncation marker appended), while content one character over
the cap is cut to the cap and the truncation marker — whose text ends in
"[truncated]" — is present at the end of the rendered output. -/
theorem truncation_boundary (s t : String)
    (hs : s.length = MAX_CHARS) (ht : t.length = MAX_CHARS + 1) :
    truncateForViewer (JSValue.str s) = JSValue.str s ∧
    truncateForViewer (JSValue.str t)
      = JSValue.str (t.take MAX_CHARS ++ truncMarker) ∧
    ∃ u, truncateForViewer (JSValue.str t) = JSValue.str (u ++ truncMarker) := by
  have h2 : truncateForViewer (JSValue.str t)
      = JSValue.str (t.take MAX_CHARS ++ truncMarker) := by
    simp [truncateForViewer, ht, Nat.lt_succ_self]
  refine ⟨?_, h2, t.take MAX_CHARS, h2⟩
  simp [truncateForViewer, hs]

/-- Witness for C1 at concrete strings of lengths 200,000 and 200,001. -/
theorem truncation_boundary_witness :
    truncateForViewer (JSValue.str capStringA) = JSValue.str capStringA ∧
    truncateForViewer (JSValue.str capStringB)
      = JSValue.str (capStringB.take MAX_CHARS ++ truncMarker) ∧
    ∃ u, truncateForViewer (JSValue.str capStringB) = JSValue.str (u ++ truncMarker) :=
  truncation_boundary capStringA capStringB
    (by simp [capStringA, String.length])
    (by simp [capStringB, String.length])

/-- C9: the DiffViewer truncation transform is total on arbitrary inputs —
every non-string value (null, undefined, a number, a boolean, an object) is
passed through unchanged, with no string operation applied to it. -/
theorem truncate_total_on_nonstrings (v : JSValue) (h : v.isString = false) :
    truncateForViewer v = v := by
  cases v with
  | str s => simp [JSValue.isString] at h
  | null => rfl
  | undef => rfl
  | num k => rfl
  | bool b => rfl
  | obj => rfl

/-- Witness for C9 at the concrete non-string values. -/
theorem truncate_total_on_nonstrings_witness :
    truncateForViewer JSValue.null = JSValue.null ∧
    truncateForViewer JSValue.undef = JSValue.undef ∧
    truncateForViewer (JSValue.num 5) = JSValue.num 5 ∧
    truncateForViewer JSValue.obj = JSValue.obj :=
  ⟨truncate_total_on_nonstrings JSValue.null rfl,
   truncate_total_on_nonstrings JSValue.undef rfl,
   truncate_total_on_nonstrings (JSValue.num 5) rfl,
   truncate_total_on_nonstrings JSValue.obj rfl⟩

/-- C4: the diff computation, including the truncation transform, is
deterministic — two runs on equal inputs produce identical output, with no
dependence on external state. -/
theorem diff_deterministic (o1 n1 o2 n2 : String) (v1 v2 : JSValue)
    (ho : o1 = o2) (hn : n1 = n2) (hv : v1 = v2) :
    computeDiff o1 n1 = computeDiff o2 n2 ∧
    truncateForViewer v1 = truncateForViewer v2 := by
  subst ho
  subst hn
  subst hv
  exact ⟨rfl, rfl⟩

/-- Witness for C4 at concrete inputs. -/
theorem diff_deterministic_witness :
    computeDiff "a" "b" = computeDiff "a" "b" ∧
    truncateForViewer (JSValue.str "a") = truncateForViewer (JSValue.str "a") :=
  diff_deterministic "a" "b" "a" "b" (JSValue.str "a") (JSValue.str "a") rfl rfl rfl

/-- C3: diffing the concrete inputs old = "a\nb\nc" and new = "a\nx\nc"
produces lines_added = 1, lines_removed = 1 and has_changes = true. -/
theorem diff_concrete_abc :
    (computeDiff "a\nb\nc" "a\nx\nc").lines_added = 1 ∧
    (computeDiff "a\nb\nc" "a\nx\nc").lines_removed = 1 ∧
    (computeDiff "a\nb\nc" "a\nx\nc").has_changes = true := by
  decide

/-- C2: diffing identical inputs yields has_changes = false and summary
exactly "No changes detected"; whenever the result has changes, the summary is
the one-line string built from the added and removed counts, so the summary
always agrees with the counts and with has_changes. -/
theorem diff_summary_spec (o n : String) :
    ((computeDiff o o).has_changes = false ∧
      (computeDiff o o).summary = "No changes detected") ∧
    ((computeDiff o n).has_changes = true →
      (computeDiff o n).summary =
        summaryLine (computeDiff o n).lines_added (computeDiff o n).lines_removed) ∧
    ((computeDiff o n).has_changes = false →
      (computeDiff o n).summary = "No changes detected") := by
  have hk : lcsLength (splitLines o) (splitLines o) = (splitLines o).length :=
    lcsLengthFuel_self _ _ le_rfl
  refine ⟨⟨?_, ?_⟩, ?_, ?_⟩
  · simp [computeDiff, lcsLength] at hk ⊢
    simp [hk]
  · simp [computeDiff, lcsLength] at hk ⊢
    simp [hk]
  · intro h
    simp only [computeDiff, decide_eq_true_eq] at h
    simp only [computeDiff]
    rw [if_pos h]
  · intro h
    simp only [computeDiff, decide_eq_false_iff_not] at h
    simp only [computeDiff]
    rw [if_neg h]

/-- C6: for every pair of root trees, the matcher's component list is sorted
strictly by name — hence it contains no duplicate component names — and the
files within each matched component are sorted strictly by name, so the
matcher's output is deterministic. -/
theorem matcher_sorted_nodup (oldT newT : FileTree) :
    ((matchTrees oldT newT).map MatchedComponent.name).Pairwise (· < ·) ∧
    ∀ c ∈ matchTrees oldT newT, c.files.Pairwise (· < ·) := by
  constructor
  · have hsub := map_name_filterMap_sublist (g := matchComponent oldT newT)
      (fun n c h => matchComponent_name h) (sortDedup (dirNames oldT))
    exact (pairwise_sortDedup (dirNames oldT)).sublist hsub
  · intro c hc
    rcases List.mem_filterMap.mp hc with ⟨n, _, h⟩
    exact matchComponent_files h

/-- C5: the aggregator's components_with_changes equals the count of matched
components in which at least one FileDiff has has_changes = true, and
therefore never exceeds total_components. -/
theorem components_with_changes_bound (oldT newT : FileTree) :
    (compareTrees oldT newT).components_with_changes =
      ((matchedTriples oldT newT).filter (fun p =>
        (componentDiffs p.1 p.2.1 p.2.2).any (fun fd => fd.has_changes))).length ∧
    (compareTrees oldT newT).components_with_changes ≤
      (compareTrees oldT newT).total_components := by
  exact ⟨rfl, List.length_filter_le _ _⟩

/-- C7: a component or file present in only one of the two trees never
appears in the ComparisonResult's file_diffs as a FileDiff (in particular
never as one with has_changes); instead a distinct sentinel diagnostic is
emitted: "missing in NEW" for an entry present only in the old tree and
"missing in OLD" for an entry present only in the new tree — stated for a
component present only in the old tree, a component present only in the new
tree, a file of a matched component present only on the old side, and a file
of a matched component present only on the new side. -/
theorem missing_side_sentinel (oldT newT : FileTree) (c f : String) :
    (c ∈ dirNames oldT → c ∉ dirNames newT →
      (∀ fd ∈ (compareTrees oldT newT).file_diffs, fd.component_name ≠ c) ∧
      (⟨c, "", missingInNewMsg⟩ : DiagnosticEntry) ∈
        (compareTrees oldT newT).diagnostics) ∧
    (c ∉ dirNames oldT → c ∈ dirNames newT →
      (∀ fd ∈ (compareTrees oldT newT).file_diffs, fd.component_name ≠ c) ∧
      (⟨c, "", missingInOldMsg⟩ : DiagnosticEntry) ∈
        (compareTrees oldT newT).diagnostics) ∧
    (∀ od nd, findDir oldT c = some od → findDir newT c = some nd →
      f ∈ fileNames od → f ∉ fileNames nd →
      (∀ fd ∈ (compareTrees oldT newT).file_diffs,
        ¬(fd.component_name = c ∧ fd.file_name = f)) ∧
      (⟨c, f, missingInNewMsg⟩ : DiagnosticEntry) ∈
        (compareTrees oldT newT).diagnostics) ∧
    (∀ od nd, findDir oldT c = some od → findDir newT c = some nd →
      f ∉ fileNames od → f ∈ fileNames nd →
      (∀ fd ∈ (compareTrees oldT newT).file_diffs,
        ¬(fd.component_name = c ∧ fd.file_name = f)) ∧
      (⟨c, f, missingInOldMsg⟩ : DiagnosticEntry) ∈
        (compareTrees oldT newT).diagnostics) := by
  refine ⟨?_, ?_, ?_, ?_⟩
  · intro hold hnew
    refine ⟨no_file_diffs_of_unmatched (Or.inr hnew), ?_⟩
    rcases findDir_isSome_of_mem hold with ⟨od, hod⟩
    have hnone : findDir newT c = none := findDir_eq_none hnew
    apply mem_diagnostics_of_comp (List.mem_append.mpr (Or.inl hold))
    simp only [compDiagFor, hod, hnone]
  · intro hold hnew
    refine ⟨no_file_diffs_of_unmatched (Or.inl hold), ?_⟩
    rcases findDir_isSome_of_mem hnew with ⟨nd, hnd⟩
    have hnone : findDir oldT c = none := findDir_eq_none hold
    apply mem_diagnostics_of_comp (List.mem_append.mpr (Or.inr hnew))
    simp only [compDiagFor, hnone, hnd]
  · intro od nd ho hn hfo hfn
    have hnone : findFile nd f = none := findFile_eq_none hfn
    refine ⟨no_file_diff_at ho hn (Or.inr hnone), ?_⟩
    rcases findFile_isSome_of_mem hfo with ⟨fo, hfo2⟩
    exact mem_diagnostics_of_file (tripleFor_mem ho hn)
      (mem_componentDiags (mem_sortDedup.mpr (List.mem_append.mpr (Or.inl hfo)))
        (fileOutcome_missing_new hfo2 hnone))
  · intro od nd ho hn hfo hfn
    have hnone : findFile od f = none := findFile_eq_none hfo
    refine ⟨no_file_diff_at ho hn (Or.inl hnone), ?_⟩
    rcases findFile_isSome_of_mem hfn with ⟨fn, hfn2⟩
    exact mem_diagnostics_of_file (tripleFor_mem ho hn)
      (mem_componentDiags (mem_sortDedup.mpr (List.mem_append.mpr (Or.inr hfn)))
        (fileOutcome_missing_old hnone hfn2))

/-- Witness for C7 at a concrete pair of trees covering all four one-side-only
cases: component "alpha" only in the old tree, component "beta" only in the
new tree, and inside the matched component "shared" the file "old.cfg" only on
the old side and the file "new.cfg" only on the new side. -/
theorem missing_side_sentinel_witness :
    (⟨"alpha", "", missingInNewMsg⟩ : DiagnosticEntry) ∈
      (compareTrees oldTreeM newTreeM).diagnostics ∧
    (⟨"beta", "", missingInOldMsg⟩ : DiagnosticEntry) ∈
      (compareTrees oldTreeM newTreeM).diagnostics ∧
    (⟨"shared", "old.cfg", missingInNewMsg⟩ : DiagnosticEntry) ∈
      (compareTrees oldTreeM newTreeM).diagnostics ∧
    (⟨"shared", "new.cfg", missingInOldMsg⟩ : DiagnosticEntry) ∈
      (compareTrees oldTreeM newTreeM).diagnostics :=
  ⟨((missing_side_sentinel oldTreeM newTreeM "alpha" "").1
      (by decide) (by decide)).2,
   ((missing_side_sentinel oldTreeM newTreeM "beta" "").2.1
      (by decide) (by decide)).2,
   ((missing_side_sentinel oldTreeM newTreeM "shared" "old.cfg").2.2.1
      ⟨"shared", [⟨"old.cfg", "1", true⟩]⟩ ⟨"shared", [⟨"new.cfg", "2", true⟩]⟩
      (by decide) (by decide) (by decide) (by decide)).2,
   ((missing_side_sentinel oldTreeM newTreeM "shared" "new.cfg").2.2.2
      ⟨"shared", [⟨"old.cfg", "1", true⟩]⟩ ⟨"shared", [⟨"new.cfg", "2", true⟩]⟩
      (by decide) (by decide) (by decide) (by decide)).2⟩

/-- C8: a permission-denied entry never aborts the scan — within a matched
component, every discovered file appears in the result either as a FileDiff or
as a diagnostic entry (no file is silently dropped), and a matched file pair
with an unreadable side is recorded as a skipped-entry diagnostic while the
comparison continues. -/
theorem permission_denied_recovery (oldT newT : FileTree) (c f : String)
    (od nd : DirNode) (ho : findDir oldT c = some od) (hn : findDir newT c = some nd)
    (hf : f ∈ fileNames od ∨ f ∈ fileNames nd) :
    ((∃ fd ∈ (compareTrees oldT newT).file_diffs,
        fd.component_name = c ∧ fd.file_name = f) ∨
      (∃ dg ∈ (compareTrees oldT newT).diagnostics,
        dg.component_name = c ∧ dg.file_name = f)) ∧
    (∀ fo fn, findFile od f = some fo → findFile nd f = some fn →
      (fo.readable && fn.readable) = false →
      (⟨c, f, skippedMsg⟩ : DiagnosticEntry) ∈
        (compareTrees oldT newT).diagnostics) := by
  have hmemtri : (c, od, nd) ∈ matchedTriples oldT newT := tripleFor_mem ho hn
  have hfcomp : f ∈ componentFileNames od nd :=
    mem_sortDedup.mpr (List.mem_append.mpr hf)
  constructor
  · rcases @fileOutcome_isSome c od nd f hf with ⟨o, hout⟩
    cases o with
    | inl fd =>
        left
        exact ⟨fd, mem_file_diffs.mpr ⟨(c, od, nd), hmemtri,
          mem_componentDiffs hfcomp hout⟩, fileOutcome_inl hout⟩
    | inr dg =>
        right
        exact ⟨dg, mem_diagnostics_of_file hmemtri
          (mem_componentDiags hfcomp hout), fileOutcome_inr hout⟩
  · intro fo fn hfo hfn2 hr
    exact mem_diagnostics_of_file hmemtri
      (mem_componentDiags hfcomp (fileOutcome_skipped hfo hfn2 hr))

/-- Witness for C8 at a concrete pair of trees where the matched file is
unreadable on the old side. -/
theorem permission_denied_recovery_witness :
    ((∃ fd ∈ (compareTrees oldTreeP newTreeP).file_diffs,
        fd.component_name = "comp" ∧ fd.file_name = "f.cfg") ∨
      (∃ dg ∈ (compareTrees oldTreeP newTreeP).diagnostics,
        dg.component_name = "comp" ∧ dg.file_name = "f.cfg")) ∧
    (∀ fo fn, findFile ⟨"comp", [⟨"f.cfg", "old", false⟩]⟩ "f.cfg" = some fo →
      findFile ⟨"comp", [⟨"f.cfg", "new", true⟩]⟩ "f.cfg" = some fn →
      (fo.readable && fn.readable) = false →
      (⟨"comp", "f.cfg", skippedMsg⟩ : DiagnosticEntry) ∈
        (compareTrees oldTreeP newTreeP).diagnostics) :=
  permission_denied_recovery oldTreeP newTreeP "comp" "f.cfg"
    ⟨"comp", [⟨"f.cfg", "old", false⟩]⟩ ⟨"comp", [⟨"f.cfg", "new", true⟩]⟩
    (by decide) (by decide) (Or.inl (by decide))

/-- C10: after a folder comparison whose result has a non-empty file_diffs
sequence, the selected diff is the first entry with has_changes = true, or the
first entry of file_diffs when no entry has changes; with an empty file_diffs,
no diff is selected. -/
theorem preselect_first_change (fds : List FileDiff) :
    (fds = [] → selectInitialDiff fds = none) ∧
    (∀ fd, fds.find? (fun x => x.has_changes) = some fd →
      selectInitialDiff fds = some fd) ∧
    (∀ fd0 rest, fds = fd0 :: rest →
      fds.find? (fun x => x.has_changes) = none →
      selectInitialDiff fds = some fd0) := by
  cases fds with
  | nil =>
      refine ⟨fun _ => rfl, ?_, ?_⟩
      · intro fd h
        rw [List.find?_nil] at h
        exact Option.noConfusion h
      · intro fd0 rest h _
        exact List.noConfusion h
  | cons a l =>
      refine ⟨fun h => List.noConfusion h, ?_, ?_⟩
      · intro fd h
        simp [selectInitialDiff, h]
      · intro fd0 rest heq hnone
        cases heq
        simp [selectInitialDiff, hnone]

end CompareTool
